import Mathlib

/-!
# speedtest-go: server directory, selector and benchmark orchestrator

A shallow embedding of `server.go`, and of the method of `speedtest.go` that
drives it, together with the properties proved about it.

Modelling conventions.

* `float64` is a type parameter `F`.  The arithmetic the program performs on it
  (`+ - * /`, comparison by `<`, the literals, `float64(n)`) comes from the usual
  type classes, so every definition can be run at `F := ℚ`, and every theorem
  that does not ask for more holds for any interpretation of the operations,
  rounding included.  "No NaN" is the assumption that `F` is linearly ordered.
* `*Server` is an address (`Ptr`) into a heap `Heap F := Ptr → Server F`;
  `Servers` (`[]*Server`) is a list of addresses.  Writing through a pointer is
  `Heap.set`.
* Library and out-of-file routines enter as parameters: `strconv.Atoi` (`atoi`),
  `math.Pi/Sin/Cos/Acos` and `strconv.ParseFloat` (`MathLib`), `sort.Sort`
  (`sortSort`, constrained where needed by `SortContract`), and the three transport
  probes (`Probes`), which thread the state of the outside world.  The routines
  of Go's `sort` package are also given as definitions, to run `sort.Sort` on
  concrete catalogs.
* What is printed is collected as a list of `Output` records, one per call.
-/

namespace SpeedtestGo

/-! ## Data model -/

/-- Server information (`type Server struct`).  `Latency` is a `time.Duration`,
an integer number of nanoseconds. -/
structure Server (F : Type) where
  URL : String
  Lat : String
  Lon : String
  Name : String
  Country : String
  Sponsor : String
  ID : String
  URL2 : String
  Host : String
  Distance : F
  Latency : Int
  DLSpeed : F
  ULSpeed : F

/-- The address of a `Server` value (`*Server`). -/
abbrev Ptr := Nat

/-- The store the pointers point into. -/
def Heap (F : Type) := Ptr → Server F

/-- Assignment through a pointer: the heap with the server at `p` replaced. -/
def Heap.set {F : Type} (h : Heap F) (p : Ptr) (v : Server F) : Heap F :=
  fun q => if q = p then v else h q

/-- Servers for sorting servers (`type Servers []*Server`). -/
abbrev Servers := List Ptr

/-- ServerList list of Server (`type ServerList struct`). -/
structure ServerList where
  Servers : List Ptr

/-- Modelled from the spec: the result of the user locator, `User`, whose
declaration is in a file of the repository that is not among the sources, reduced
to the latitude and longitude that `FetchServerList` reads and parses. -/
structure User where
  Lat : String
  Lon : String

/-! ## sort.Interface as implemented by `Servers` and `ByDistance` -/

/-- The three methods of Go's `sort.Interface`, over a state `σ` that `Swap`
transforms. -/
structure Interface (σ : Type) where
  Len : σ → Nat
  Less : σ → Nat → Nat → Bool
  Swap : σ → Nat → Nat → σ

/-- Len finds length of servers. -/
def Len (svrs : Servers) : Nat :=
  svrs.length

/-- Swap swaps i-th and j-th: `svrs[i], svrs[j] = svrs[j], svrs[i]`.  An index
out of range panics in Go; here it leaves the slice unchanged. -/
def Swap (svrs : Servers) (i j : Nat) : Servers :=
  match svrs[i]?, svrs[j]? with
  | some a, some b => (svrs.set i b).set j a
  | _, _ => svrs

/-- Less compares the distance:
`b.Servers[i].Distance < b.Servers[j].Distance`.  An index out of range panics
in Go; here it answers `false`. -/
def Less {F : Type} [LT F] [DecidableRel (fun (x y : F) => x < y)] (h : Heap F)
    (b : Servers) (i j : Nat) : Bool :=
  match b[i]?, b[j]? with
  | some p, some q => decide ((h p).Distance < (h q).Distance)
  | _, _ => false

/-- The interface value `ByDistance{servers}`: `Len` and `Swap` are promoted from
the embedded `Servers`, `Less` is its own.  The heap is not changed by sorting. -/
def ByDistance {F : Type} [LT F] [DecidableRel (fun (x y : F) => x < y)] (h : Heap F) :
    Interface Servers :=
  { Len := Len, Less := Less h, Swap := Swap }

/-! ## Library routines

`sort.Sort` itself is a parameter of `FetchServerList`.  `sortInsertion` and
`sortShell` are what the Go library runs on short slices, and `sortPdq` is
`sort.Sort` of Go 1.19 and later in full; they serve as instances of that
parameter. -/

/-- The part of `math` and `strconv` that `FetchServerList` and `distance` call.
`ParseFloat` is the value `strconv.ParseFloat(s, 64)` returns, its error
dropped as the program drops it. -/
structure MathLib (F : Type) where
  Pi : F
  Sin : F → F
  Cos : F → F
  Acos : F → F
  ParseFloat : String → F

/-- The digit loop of `strconv.ParseUint(s, 10, 64)`, continuing from `n`: `none`
is the syntax error at a character that is not a decimal digit; on overflow of
64 bits the loop stops at once with the largest value, whatever follows. -/
def parseUint : List Char → Nat → Option Nat
  | [], n => some n
  | c :: cs, n =>
    if '0' ≤ c ∧ c ≤ '9' then
      if 2 ^ 64 / 10 + 1 ≤ n then some (2 ^ 64 - 1)
      else if 2 ^ 64 - 1 < n * 10 + (c.toNat - '0'.toNat) then some (2 ^ 64 - 1)
      else parseUint cs (n * 10 + (c.toNat - '0'.toNat))
    else none

/-- The value `strconv.Atoi` returns on a 64-bit platform, its error dropped as
`FindServer` drops it: after an optional sign, `ParseUint` reads the digits; a
syntax error gives 0, and a magnitude outside the `int` range (a range error of
`ParseUint` included) gives the nearest end of the range. -/
def Atoi (s : String) : Int :=
  let signed : Bool × List Char :=
    match s.toList with
    | '+' :: cs => (false, cs)
    | '-' :: cs => (true, cs)
    | cs => (false, cs)
  if signed.2 = [] then 0 else
  match parseUint signed.2 0 with
  | none => 0
  | some un =>
    if signed.1 = false ∧ 2 ^ 63 ≤ un then (2 : Int) ^ 63 - 1
    else if signed.1 = true ∧ 2 ^ 63 < un then -(2 : Int) ^ 63
    else if signed.1 = true then -(un : Int)
    else (un : Int)

/-- The inner loop of Go's `insertionSort`:
`for j := i; j > a && data.Less(j, j-1); j-- { data.Swap(j, j-1) }`. -/
def insertionInner {σ : Type} (data : Interface σ) (a : Nat) : Nat → σ → σ
  | 0, s => s
  | j + 1, s =>
    if a < j + 1 ∧ data.Less s (j + 1) j = true then
      insertionInner data a j (data.Swap s (j + 1) j)
    else s

/-- Go's `insertionSort(data, a, b)`: `for i := a + 1; i < b; i++` around the
inner loop. -/
def insertionSort {σ : Type} (data : Interface σ) (s : σ) (a b : Nat) : σ :=
  (List.range' (a + 1) (b - (a + 1))).foldl (fun s i => insertionInner data a i s) s

/-- The ShellSort pass with gap 6 that `quickSort` of Go 1.6 to 1.18 runs before
`insertionSort` on a slice of at most 12 elements:
`for i := a + 6; i < b; i++ { if data.Less(i, i-6) { data.Swap(i, i-6) } }`. -/
def shellPass {σ : Type} (data : Interface σ) (s : σ) (a b : Nat) : σ :=
  (List.range' (a + 6) (b - (a + 6))).foldl
    (fun s i => if data.Less s i (i - 6) = true then data.Swap s i (i - 6) else s) s

/-- What `sort.Sort` of Go 1.19 and later does on a slice of at most 12 elements:
`n := data.Len()` and `insertionSort(data, 0, n)`. -/
def sortInsertion {σ : Type} (data : Interface σ) (s : σ) : σ :=
  insertionSort data s 0 (data.Len s)

/-- What `sort.Sort` of Go 1.6 to 1.18 does on a slice of at most 12 elements:
the gap-6 pass, then `insertionSort(data, 0, n)`. -/
def sortShell {σ : Type} (data : Interface σ) (s : σ) : σ :=
  insertionSort data (shellPass data s 0 (data.Len s)) 0 (data.Len s)

/-- A loop `for cond { body }` run for at most the given number of rounds. -/
def loopWhile {α : Type} (cond : α → Bool) (body : α → α) : Nat → α → α
  | 0, x => x
  | n + 1, x => if cond x = true then loopWhile cond body n (body x) else x

/-- The hint `choosePivot` gives `pdqsort` (`type sortedHint int`). -/
inductive sortedHint where
  | unknownHint
  | increasingHint
  | decreasingHint
  deriving DecidableEq

/-- Go's `bits.Len`: the number of bits needed to write `n`. -/
def bitsLen (n : Nat) : Nat :=
  (loopWhile (fun (x : Nat × Nat) => decide (0 < x.1)) (fun x => (x.1 / 2, x.2 + 1)) n (n, 0)).2

/-- Go's `siftDown(data, lo, hi, first)`. -/
def siftDown {σ : Type} (data : Interface σ) (s : σ) (lo hi first : Nat) : σ :=
  (loopWhile
    (fun (x : σ × Nat) =>
      let child := 2 * x.2 + 1
      if hi ≤ child then false
      else
        let child :=
          if child + 1 < hi ∧ data.Less x.1 (first + child) (first + child + 1) = true
          then child + 1 else child
        data.Less x.1 (first + x.2) (first + child))
    (fun (x : σ × Nat) =>
      let child := 2 * x.2 + 1
      let child :=
        if child + 1 < hi ∧ data.Less x.1 (first + child) (first + child + 1) = true
        then child + 1 else child
      (data.Swap x.1 (first + x.2) (first + child), child))
    hi (s, lo)).1

/-- Go's `heapSort(data, a, b)`. -/
def heapSort {σ : Type} (data : Interface σ) (s : σ) (a b : Nat) : σ :=
  let first := a
  let lo := 0
  let hi := b - a
  let s := (List.range ((hi - 1) / 2 + 1)).reverse.foldl
    (fun s i => siftDown data s i hi first) s
  (List.range hi).reverse.foldl
    (fun s i => siftDown data (data.Swap s first (first + i)) lo i first) s

/-- Go's `order2(data, a, b, swaps)`: the two indexes with the smaller element
first, and the count of swaps. -/
def order2 {σ : Type} (data : Interface σ) (s : σ) (a b swaps : Nat) : Nat × Nat × Nat :=
  if data.Less s b a = true then (b, a, swaps + 1) else (a, b, swaps)

/-- Go's `median(data, a, b, c, swaps)`: the index of the median of three, and the
count of swaps. -/
def median {σ : Type} (data : Interface σ) (s : σ) (a b c swaps : Nat) : Nat × Nat :=
  let ab := order2 data s a b swaps
  let bc := order2 data s ab.2.1 c ab.2.2
  let ab2 := order2 data s ab.1 bc.1 bc.2.2
  (ab2.2.1, ab2.2.2)

/-- Go's `medianAdjacent(data, a, swaps)`. -/
def medianAdjacent {σ : Type} (data : Interface σ) (s : σ) (a swaps : Nat) : Nat × Nat :=
  median data s (a - 1) a (a + 1) swaps

/-- Go's `choosePivot(data, a, b)`. -/
def choosePivot {σ : Type} (data : Interface σ) (s : σ) (a b : Nat) : Nat × sortedHint :=
  let l := b - a
  let i := a + l / 4 * 1
  let j := a + l / 4 * 2
  let k := a + l / 4 * 3
  let chosen : Nat × Nat :=
    if 8 ≤ l then
      if 50 ≤ l then
        let mi := medianAdjacent data s i 0
        let mj := medianAdjacent data s j mi.2
        let mk := medianAdjacent data s k mj.2
        median data s mi.1 mj.1 mk.1 mk.2
      else median data s i j k 0
    else (j, 0)
  if chosen.2 = 0 then (chosen.1, sortedHint.increasingHint)
  else if chosen.2 = 4 * 3 then (chosen.1, sortedHint.decreasingHint)
  else (chosen.1, sortedHint.unknownHint)

/-- Go's `reverseRange(data, a, b)`. -/
def reverseRange {σ : Type} (data : Interface σ) (s : σ) (a b : Nat) : σ :=
  (loopWhile (fun (x : σ × Nat × Nat) => decide (x.2.1 < x.2.2))
    (fun x => (data.Swap x.1 x.2.1 x.2.2, x.2.1 + 1, x.2.2 - 1)) (b - a) (s, a, b - 1)).1

/-- The loop `for j := i - 1; j >= 1; j--` of `partialInsertionSort`, which
shifts the smaller element to the left. -/
def shiftLeft {σ : Type} (data : Interface σ) (s : σ) (i : Nat) : σ :=
  (loopWhile (fun (x : σ × Nat) => decide (1 ≤ x.2) && data.Less x.1 x.2 (x.2 - 1))
    (fun x => (data.Swap x.1 x.2 (x.2 - 1), x.2 - 1)) i (s, i - 1)).1

/-- The loop `for j := i + 1; j < b; j++` of `partialInsertionSort`, which shifts
the greater element to the right. -/
def shiftRight {σ : Type} (data : Interface σ) (s : σ) (i b : Nat) : σ :=
  (loopWhile (fun (x : σ × Nat) => decide (x.2 < b) && data.Less x.1 x.2 (x.2 - 1))
    (fun x => (data.Swap x.1 x.2 (x.2 - 1), x.2 + 1)) b (s, i + 1)).1

/-- One round of the outer loop of `partialInsertionSort`, on the data, the index
`i` and the answer once it is known. -/
def partialInsertionRound {σ : Type} (data : Interface σ) (a b : Nat)
    (x : σ × Nat × Option Bool) : σ × Nat × Option Bool :=
  match x.2.2 with
  | some _ => x
  | none =>
    let i := loopWhile (fun (i : Nat) => decide (i < b) && !data.Less x.1 i (i - 1))
      (fun i => i + 1) b x.2.1
    if i = b then (x.1, i, some true)
    else if b - a < 50 then (x.1, i, some false)
    else
      let s := data.Swap x.1 i (i - 1)
      let s := if 2 ≤ i - a then shiftLeft data s i else s
      let s := if 2 ≤ b - i then shiftRight data s i b else s
      (s, i, none)

/-- Go's `partialInsertionSort(data, a, b)`: the data, and whether it is sorted at
the end. -/
def partialInsertionSort {σ : Type} (data : Interface σ) (s : σ) (a b : Nat) : σ × Bool :=
  let r := (List.range 5).foldl (fun x _ => partialInsertionRound data a b x) (s, a + 1, none)
  (r.1, r.2.2.getD false)

/-- Go's `breakPatterns(data, a, b)`.  The pseudo-random step `xorshift.Next` is
the parameter `next`, on the generator's 64-bit state. -/
def breakPatterns {σ : Type} (next : Nat → Nat) (data : Interface σ) (s : σ) (a b : Nat) :
    σ :=
  let length := b - a
  if 8 ≤ length then
    let modulus := 2 ^ bitsLen length
    let idx := a + (length / 4) * 2 - 1
    ((List.range 3).foldl
      (fun (x : σ × Nat) i =>
        let random := next x.2
        let other := random % modulus
        let other := if length ≤ other then other - length else other
        (data.Swap x.1 (idx - 1 + i) (a + other), random))
      (s, length)).1
  else s

/-- Go's `partitionEqual(data, a, b, pivot)`: the data and the new start. -/
def partitionEqual {σ : Type} (data : Interface σ) (s : σ) (a b pivot : Nat) : σ × Nat :=
  let s := data.Swap s a pivot
  let scan := fun (x : σ × Nat × Nat) =>
    let i := loopWhile (fun (i : Nat) => decide (i ≤ x.2.2) && !data.Less x.1 a i)
      (fun i => i + 1) (b - a) x.2.1
    let j := loopWhile (fun (j : Nat) => decide (i ≤ j) && data.Less x.1 a j)
      (fun j => j - 1) (b - a) x.2.2
    (i, j)
  let r := loopWhile (fun (x : σ × Nat × Nat) => decide ((scan x).1 ≤ (scan x).2))
    (fun x => (data.Swap x.1 (scan x).1 (scan x).2, (scan x).1 + 1, (scan x).2 - 1))
    (b - a) (s, a + 1, b - 1)
  (r.1, (scan r).1)

/-- Go's `partition(data, a, b, pivot)`: the data, the new index of the pivot, and
whether the slice was already partitioned. -/
def partition {σ : Type} (data : Interface σ) (s : σ) (a b pivot : Nat) : σ × Nat × Bool :=
  let s := data.Swap s a pivot
  let scan := fun (x : σ × Nat × Nat) =>
    let i := loopWhile (fun (i : Nat) => decide (i ≤ x.2.2) && data.Less x.1 i a)
      (fun i => i + 1) (b - a) x.2.1
    let j := loopWhile (fun (j : Nat) => decide (i ≤ j) && !data.Less x.1 j a)
      (fun j => j - 1) (b - a) x.2.2
    (i, j)
  let first := scan (s, a + 1, b - 1)
  if first.2 < first.1 then (data.Swap s first.2 a, first.2, true)
  else
    let s := data.Swap s first.1 first.2
    let r := loopWhile (fun (x : σ × Nat × Nat) => decide ((scan x).1 ≤ (scan x).2))
      (fun x => (data.Swap x.1 (scan x).1 (scan x).2, (scan x).1 + 1, (scan x).2 - 1))
      (b - a) (s, first.1 + 1, first.2 - 1)
    (data.Swap r.1 (scan r).2 a, (scan r).2, false)

/-- Go's `pdqsort(data, a, b, limit)` of Go 1.19 and later, with its two flags
`wasBalanced` and `wasPartitioned`.  Every round either returns or goes on with
a shorter range, so the first argument, which bounds the rounds, is never used
up when it starts above `b - a`. -/
def pdqsort {σ : Type} (next : Nat → Nat) (data : Interface σ) :
    Nat → Nat → Nat → Nat → Bool → Bool → σ → σ
  | 0, _, _, _, _, _, s => s
  | rounds + 1, a, b, limit, wasBalanced, wasPartitioned, s =>
    let length := b - a
    if length ≤ 12 then insertionSort data s a b
    else if limit = 0 then heapSort data s a b
    else
      let s := if wasBalanced = false then breakPatterns next data s a b else s
      let limit := if wasBalanced = false then limit - 1 else limit
      let chosen := choosePivot data s a b
      let s := if chosen.2 = sortedHint.decreasingHint then reverseRange data s a b else s
      let pivot :=
        if chosen.2 = sortedHint.decreasingHint then (b - 1) - (chosen.1 - a) else chosen.1
      let hint :=
        if chosen.2 = sortedHint.decreasingHint then sortedHint.increasingHint else chosen.2
      let tried : σ × Bool :=
        if wasBalanced = true ∧ wasPartitioned = true ∧ hint = sortedHint.increasingHint
        then partialInsertionSort data s a b else (s, false)
      if tried.2 = true then tried.1
      else
        let s := tried.1
        if 0 < a ∧ data.Less s (a - 1) pivot = false then
          let eq := partitionEqual data s a b pivot
          pdqsort next data rounds eq.2 b limit wasBalanced wasPartitioned eq.1
        else
          let part := partition data s a b pivot
          let mid := part.2.1
          let leftLen := mid - a
          let rightLen := b - mid
          let balanceThreshold := length / 8
          if leftLen < rightLen then
            let s := pdqsort next data rounds a mid limit true true part.1
            pdqsort next data rounds (mid + 1) b limit (decide (balanceThreshold ≤ leftLen))
              part.2.2 s
          else
            let s := pdqsort next data rounds (mid + 1) b limit true true part.1
            pdqsort next data rounds a mid limit (decide (balanceThreshold ≤ rightLen))
              part.2.2 s

/-- Go's `sort.Sort` of Go 1.19 and later:
`n := data.Len(); if n <= 1 { return }; limit := bits.Len(uint(n)); pdqsort(data, 0, n, limit)`. -/
def sortPdq {σ : Type} (next : Nat → Nat) (data : Interface σ) (s : σ) : σ :=
  let n := data.Len s
  if n ≤ 1 then s else pdqsort next data (n + 1) 0 n (bitsLen n) true true s

/-! ## server.go -/

/-- The function `distance` of server.go: spherical law of cosines with radius
6378.137 km. -/
def distance {F : Type} [OfScientific F] [Add F] [Sub F] [Mul F] [Div F] (m : MathLib F)
    (lat1 lon1 lat2 lon2 : F) : F :=
  let radius : F := 6378.137
  let a1 := lat1 * m.Pi / 180.0
  let b1 := lon1 * m.Pi / 180.0
  let a2 := lat2 * m.Pi / 180.0
  let b2 := lon2 * m.Pi / 180.0
  let x := m.Sin a1 * m.Sin a2 + m.Cos a1 * m.Cos a2 * m.Cos (b2 - b1)
  radius * m.Acos x

/-- The loop "Calculate distance" of `FetchServerList`: every server of the list
gets `Distance` assigned through its pointer. -/
def calcDistance {F : Type} [OfScientific F] [Add F] [Sub F] [Mul F] [Div F] (m : MathLib F)
    (user : User) (h : Heap F) (servers : List Ptr) : Heap F :=
  servers.foldl (fun h server =>
    let sLat := m.ParseFloat (h server).Lat
    let sLon := m.ParseFloat (h server).Lon
    let uLat := m.ParseFloat user.Lat
    let uLon := m.ParseFloat user.Lon
    h.set server { h server with Distance := distance m sLat sLon uLat uLon }) h

/-- The statement "Sort by distance" of `FetchServerList`:
`sort.Sort(ByDistance{list.Servers})`. -/
def sortByDistance {F : Type} [LT F] [DecidableRel (fun (x y : F) => x < y)]
    (sortSort : Interface Servers → Servers → Servers) (h : Heap F) (servers : List Ptr) :
    List Ptr :=
  sortSort (ByDistance h) servers

/-- The function `FetchServerList` from the decoded document on: `list` and the
heap `h` are what the XML decoder produced from the fetched body.  Returns the
heap after the distance annotation, and the list or the error. -/
def FetchServerList {F : Type} [OfScientific F] [Add F] [Sub F] [Mul F] [Div F] [LT F]
    [DecidableRel (fun (x y : F) => x < y)] (sortSort : Interface Servers → Servers → Servers)
    (m : MathLib F) (user : User) (h : Heap F) (list : ServerList) :
    Heap F × Except String ServerList :=
  let h := calcDistance m user h list.Servers
  let list : ServerList := { Servers := sortByDistance sortSort h list.Servers }
  if list.Servers.length ≤ 0 then
    (h, Except.error "unable to retrieve server list")
  else
    (h, Except.ok list)

/-- FindServer finds server by serverID.  `atoi` is `strconv.Atoi` with its
error dropped. -/
def FindServer {F : Type} (atoi : String → Int) (h : Heap F) (l : ServerList)
    (serverID : List Int) : Except String Servers :=
  let servers : Servers := []
  if hlen : l.Servers.length ≤ 0 then
    Except.error "no servers available"
  else
    let servers := serverID.foldl (fun servers sid =>
      l.Servers.foldl (fun servers s =>
        let id := atoi (h s).ID
        if sid = id then servers ++ [s] else servers) servers) servers
    let servers :=
      if servers.length = 0 then servers ++ [l.Servers.get ⟨0, by omega⟩] else servers
    Except.ok servers

/-- An argument of a formatted print. -/
inductive Arg (F : Type) where
  | str (s : String)
  | float (x : F)

/-- One print call: `fmt.Printf` to standard output, `logger.Printf` with its
format and arguments, or `logger.Print` of an error. -/
inductive Output (F : Type) where
  | stdout (format : String)
  | logger (format : String) (args : List (Arg F))
  | print (err : String)

/-- The method `Server.Show`. -/
def Show {F : Type} (s : Server F) : List (Output F) :=
  [Output.stdout " \n",
   Output.logger "Target Server: [%4s] %8.2fkm " [Arg.str s.ID, Arg.float s.Distance],
   Output.logger (s.Name ++ " (" ++ s.Country ++ ") by " ++ s.Sponsor ++ "\n") []]

/-- Modelled from the spec: the transport probes `PingTest`, `DownloadTest` and
`UploadTest`, defined in a file of the repository that is not among the sources:
a latency for an endpoint, and a rate for an endpoint and a latency.  Each reads
and changes the outside world `W`. -/
structure Probes (W F : Type) where
  PingTest : String → W → Int × W
  DownloadTest : String → Int → W → F × W
  UploadTest : String → Int → W → F × W

/-- What `StartTest` acts on: the heap, the outside world, and what has been
printed so far. -/
structure TestState (W F : Type) where
  heap : Heap F
  world : W
  out : List (Output F)

/-- One iteration of the loop of `StartTest`, for the element `s` of `svrs`
(`svrs[i]` and `s` are the same pointer). -/
def startTestStep {W F : Type} (P : Probes W F) (st : TestState W F) (s : Ptr) :
    TestState W F :=
  let out := st.out ++ Show (st.heap s)
  let (latency, w1) := P.PingTest (st.heap s).URL st.world
  let (dlSpeed, w2) := P.DownloadTest (st.heap s).URL latency w1
  let (ulSpeed, w3) := P.UploadTest (st.heap s).URL latency w2
  let h1 := st.heap.set s { st.heap s with DLSpeed := dlSpeed }
  let h2 := h1.set s { h1 s with ULSpeed := ulSpeed }
  { heap := h2, world := w3, out := out }

/-- The method `Servers.StartTest`. -/
def StartTest {W F : Type} (P : Probes W F) (svrs : Servers) (st : TestState W F) :
    TestState W F :=
  svrs.foldl (startTestStep P) st

/-- The method `Servers.ShowResult`: the print calls it makes, in order. -/
def ShowResult {F : Type} [OfScientific F] [Add F] [Div F] [NatCast F] (h : Heap F)
    (svrs : Servers) : List (Output F) :=
  let out : List (Output F) := [Output.stdout " \n"]
  if hlen : svrs.length = 1 then
    let s0 := h (svrs.get ⟨0, by omega⟩)
    out ++ [Output.logger "Download: %5.2f Mbit/s\n" [Arg.float s0.DLSpeed],
            Output.logger "Upload: %5.2f Mbit/s\n" [Arg.float s0.ULSpeed]]
  else
    let out := svrs.foldl (fun out s =>
      out ++ [Output.logger "[%4s] Download: %5.2f Mbit/s, Upload: %5.2f Mbit/s\n"
        [Arg.str (h s).ID, Arg.float (h s).DLSpeed, Arg.float (h s).ULSpeed]]) out
    let avg : F × F := svrs.foldl (fun avg s =>
      (avg.1 + (h s).DLSpeed, avg.2 + (h s).ULSpeed)) (0.0, 0.0)
    out ++ [Output.logger "Download Avg: %5.2f Mbit/s\n"
              [Arg.float (avg.1 / ((svrs.length : Nat) : F))],
            Output.logger "Upload Avg: %5.2f Mbit/s\n"
              [Arg.float (avg.2 / ((svrs.length : Nat) : F))]]

/-! ## speedtest.go -/

/-- The method `Speedtest.ShowResult` of speedtest.go, on the server list the
`Speedtest` value holds: select the targets, test them, report; a selection
error is printed and nothing else happens. -/
def Speedtest.ShowResult {W F : Type} [OfScientific F] [Add F] [Div F] [NatCast F]
    (atoi : String → Int) (P : Probes W F) (serverList : ServerList) (serverIds : List Int)
    (st : TestState W F) : TestState W F :=
  match SpeedtestGo.FindServer atoi st.heap serverList serverIds with
  | Except.error err => { st with out := st.out ++ [Output.print err] }
  | Except.ok targets =>
    let st := SpeedtestGo.StartTest P targets st
    { st with out := st.out ++ SpeedtestGo.ShowResult st.heap targets }

/-! ## Notions used in the statements -/

/-- The catalog entries whose id, read by `atoi`, is `sid`, in catalog order. -/
def matching {F : Type} (atoi : String → Int) (h : Heap F) (l : ServerList) (sid : Int) :
    List Ptr :=
  l.Servers.filter (fun s => decide (sid = atoi (h s).ID))

/-- The line `ShowResult` prints for one target of several. -/
def targetLine {F : Type} (h : Heap F) (s : Ptr) : Output F :=
  Output.logger "[%4s] Download: %5.2f Mbit/s, Upload: %5.2f Mbit/s\n"
    [Arg.str (h s).ID, Arg.float (h s).DLSpeed, Arg.float (h s).ULSpeed]

/-- The sum the program forms of a list of rates: starting from `0.0`, adding
one rate after the other in list order. -/
def sumInOrder {F : Type} [OfScientific F] [Add F] (rates : List F) : F :=
  rates.foldl (fun acc x => acc + x) 0.0

/-- Whether a print call is one of the two average lines. -/
def isAvgLine {F : Type} : Output F → Bool
  | Output.logger format _ =>
    format == "Download Avg: %5.2f Mbit/s\n" || format == "Upload Avg: %5.2f Mbit/s\n"
  | Output.stdout _ => false
  | Output.print _ => false

/-- The slice `t` is reached from `s` by calls of `Swap`, each with both indexes in
range. -/
inductive SwapsTo : Servers → Servers → Prop where
  | refl (s : Servers) : SwapsTo s s
  | step {s t : Servers} (i j : Nat) (hi : i < s.length) (hj : j < s.length)
      (rest : SwapsTo (Swap s i j) t) : SwapsTo s t

/-- The documented behaviour of `sort.Sort`, as far as this program relies on it,
for the interface value `ByDistance{servers}` over distances without NaN: the
data is changed only by calls of `Swap` with indexes below `Len`, and afterwards
no element is `Less` than an element before it.  Nothing is promised about the
order of elements neither of which is `Less` than the other ("The sort is not
guaranteed to be stable"). -/
def SortContract (sortSort : Interface Servers → Servers → Servers) : Prop :=
  ∀ (F : Type) [LinearOrder F] (h : Heap F) (svrs : Servers),
    SwapsTo svrs (sortSort (ByDistance h) svrs)
      ∧ ∀ i j, i < j → j < Len svrs → Less h (sortSort (ByDistance h) svrs) j i = false

/-- The reversed sorted prefix after `x` has been inserted: `x` goes behind the
elements of larger distance. -/
def insertDesc {F : Type} [LinearOrder F] (h : Heap F) (x : Ptr) (P : List Ptr) : List Ptr :=
  P.takeWhile (fun y => decide ((h x).Distance < (h y).Distance))
    ++ x :: P.dropWhile (fun y => decide ((h x).Distance < (h y).Distance))

/-- The distance the annotation computes for the server at `p`. -/
def annotated {F : Type} [OfScientific F] [Add F] [Sub F] [Mul F] [Div F] (m : MathLib F)
    (user : User) (h : Heap F) (p : Ptr) : F :=
  distance m (m.ParseFloat (h p).Lat) (m.ParseFloat (h p).Lon)
    (m.ParseFloat user.Lat) (m.ParseFloat user.Lon)

/-- The three probes run one after the other against `url`, starting in world
`w`: the latency, then the download rate and the upload rate measured with that
latency, and the world afterwards. -/
def probeTarget {W F : Type} (P : Probes W F) (url : String) (w : W) : (Int × F × F) × W :=
  let ping := P.PingTest url w
  let dl := P.DownloadTest url ping.1 ping.2
  let ul := P.UploadTest url ping.1 dl.2
  ((ping.1, dl.1, ul.1), ul.2)

/-- The measurements of the targets of `svrs`, probed in list order from world `w`,
with the world after the last probe. -/
def probeAll {W F : Type} (P : Probes W F) (h : Heap F) :
    Servers → W → List (Int × F × F) × W
  | [], w => ([], w)
  | s :: rest, w =>
    let r := probeTarget P (h s).URL w
    let rs := probeAll P h rest r.2
    (r.1 :: rs.1, rs.2)

/-! ## Concrete inputs -/

/-- A server with the given id and distance, everything else empty or zero. -/
def mkServer (id : String) (d : ℚ) : Server ℚ :=
  { URL := "", Lat := "", Lon := "", Name := "", Country := "", Sponsor := "", ID := id,
    URL2 := "", Host := "", Distance := d, Latency := 0, DLSpeed := 0, ULSpeed := 0 }

/-- The heap that holds the servers of `l` at the addresses 0, 1, 2, ... (and an
empty server everywhere else). -/
def heapOf (l : List (Server ℚ)) : Heap ℚ :=
  fun p => l.getD p (mkServer "" 0)

/-- Three servers, ids 11, 22, 33 at distances 1, 2, 3, at the addresses 0, 1, 2. -/
def heap3 : Heap ℚ :=
  heapOf [mkServer "11" 1, mkServer "22" 2, mkServer "33" 3]

/-- The catalog of the three servers of `heap3`, nearest first. -/
def catalog3 : ServerList :=
  { Servers := [0, 1, 2] }

/-- Three tested servers with download rates 10, 20, 30 and upload rates 1, 2, 3. -/
def heapRates : Heap ℚ :=
  heapOf [{ mkServer "11" 1 with DLSpeed := 10, ULSpeed := 1 },
          { mkServer "22" 2 with DLSpeed := 20, ULSpeed := 2 },
          { mkServer "33" 3 with DLSpeed := 30, ULSpeed := 3 }]

/-- Seven servers as the distance annotation leaves them, in document order at
the addresses 0 to 6: the first two at distance 2, the next four at distance 3,
the last at distance 1. -/
def heap7 : Heap ℚ :=
  heapOf [mkServer "100" 2, mkServer "101" 2, mkServer "102" 3, mkServer "103" 3,
          mkServer "104" 3, mkServer "105" 3, mkServer "106" 1]

/-- Two servers as the decoder leaves them, the first at latitude 30, the second at
latitude 10, both at longitude 0. -/
def heapGeo : Heap ℚ :=
  heapOf [{ mkServer "11" 0 with Lat := "30", Lon := "0" },
          { mkServer "22" 0 with Lat := "10", Lon := "0" }]

/-- The seven servers of `heap7` in document order. -/
def catalog7 : List Ptr :=
  [0, 1, 2, 3, 4, 5, 6]

/-- Thirteen servers as the distance annotation leaves them, in document order at
the addresses 0 to 12: the first two at distance 7, the fourth and the seventh at
distance 5, all others at distance 9. -/
def heap13 : Heap ℚ :=
  heapOf [mkServer "200" 7, mkServer "201" 7, mkServer "202" 9, mkServer "203" 5,
          mkServer "204" 9, mkServer "205" 9, mkServer "206" 5, mkServer "207" 9,
          mkServer "208" 9, mkServer "209" 9, mkServer "210" 9, mkServer "211" 9,
          mkServer "212" 9]

/-- The thirteen servers of `heap13` in document order. -/
def catalog13 : List Ptr :=
  [0, 1, 2, 3, 4, 5, 6, 7, 8, 9, 10, 11, 12]

/-- A rational instance of the library routines, for running the definitions at
concrete inputs: pi as 355/113, sine, cosine and arc cosine by their first
Taylor terms, `ParseFloat` reading whole numbers. -/
def polyMath : MathLib ℚ :=
  { Pi := 355 / 113
    Sin := fun x => x - x ^ 3 / 6
    Cos := fun x => 1 - x ^ 2 / 2
    Acos := fun x => 355 / 226 - x - x ^ 3 / 6
    ParseFloat := fun s => (Atoi s : ℚ) }

/-- A rational instance of the library routines in which the identities of sine
and cosine hold exactly: sine and cosine by the rational parametrisation of the
circle, arc cosine by the line through its values at -1, 0 and 1. -/
def circleMath : MathLib ℚ :=
  { Pi := 355 / 113
    Sin := fun x => 2 * x / (1 + x ^ 2)
    Cos := fun x => (1 - x ^ 2) / (1 + x ^ 2)
    Acos := fun x => 355 / 226 * (1 - x)
    ParseFloat := fun s => (Atoi s : ℚ) }

/-- A caller at latitude 0, longitude 0. -/
def user0 : User :=
  { Lat := "0", Lon := "0" }

/-- Probes for a concrete run: the latency probe always measures 5 ms; the
download probe reports 10 and the upload probe 20 when handed that latency, and
0 otherwise.  The world counts the probes run. -/
def probes5 : Probes Nat ℚ :=
  { PingTest := fun _ w => (5000000, w + 1)
    DownloadTest := fun _ latency w => (if latency = 5000000 then 10 else 0, w + 1)
    UploadTest := fun _ latency w => (if latency = 5000000 then 20 else 0, w + 1) }

/-! ## The selector: `FindServer` -/

theorem inner_loop_eq {F : Type} (atoi : String → Int) (h : Heap F) (sid : Int)
    (cat : List Ptr) (acc : Servers) :
    cat.foldl (fun servers s => if sid = atoi (h s).ID then servers ++ [s] else servers) acc
      = acc ++ cat.filter (fun s => decide (sid = atoi (h s).ID)) := by
  induction cat generalizing acc with
  | nil => simp
  | cons s cat ih =>
    simp only [List.foldl_cons, ih, List.filter_cons]
    by_cases hs : sid = atoi (h s).ID <;> simp [hs]

theorem outer_loop_eq {F : Type} (atoi : String → Int) (h : Heap F) (l : ServerList)
    (serverID : List Int) (acc : Servers) :
    serverID.foldl (fun servers sid =>
      l.Servers.foldl (fun servers s =>
        if sid = atoi (h s).ID then servers ++ [s] else servers) servers) acc
      = acc ++ serverID.flatMap (matching atoi h l) := by
  induction serverID generalizing acc with
  | nil => simp
  | cons sid rest ih =>
    rw [List.foldl_cons, inner_loop_eq, ih, List.flatMap_cons, List.append_assoc]
    rfl

/-- The value of `FindServer` on a non-empty catalog: the matches of every
requested id, in request order, or the catalog head when there is none. -/
theorem FindServer_eq {F : Type} (atoi : String → Int) (h : Heap F) (l : ServerList)
    (serverID : List Int) (hne : l.Servers ≠ []) :
    FindServer atoi h l serverID
      = Except.ok (if serverID.flatMap (matching atoi h l) = []
          then [l.Servers.head hne] else serverID.flatMap (matching atoi h l)) := by
  have hlen : ¬ l.Servers.length ≤ 0 := by
    have := List.length_pos.mpr hne
    omega
  unfold FindServer
  simp only [hlen, ↓reduceDIte, outer_loop_eq, List.nil_append, List.length_eq_zero]
  congr 1
  split
  · rename_i hnil
    rw [hnil, List.nil_append]
    congr 1
    rw [List.get_eq_getElem, List.head_eq_getElem]
  · rfl

theorem flatMap_matching_eq_nil {F : Type} (atoi : String → Int) (h : Heap F)
    (l : ServerList) (serverID : List Int) :
    serverID.flatMap (matching atoi h l) = []
      ↔ ∀ sid ∈ serverID, ∀ s ∈ l.Servers, sid ≠ atoi (h s).ID := by
  simp [List.flatMap_eq_nil_iff, matching, List.filter_eq_nil_iff]

/-- C1. On a non-empty catalog, a request none of whose ids matches a catalog
entry (the empty request included) makes `FindServer` return no error and the
one-element list holding the catalog head. -/
theorem FindServer_no_match {F : Type} (atoi : String → Int) (h : Heap F) (l : ServerList)
    (serverID : List Int) (hne : l.Servers ≠ [])
    (hno : ∀ sid ∈ serverID, ∀ s ∈ l.Servers, sid ≠ atoi (h s).ID) :
    FindServer atoi h l serverID = Except.ok [l.Servers.head hne] := by
  rw [FindServer_eq atoi h l serverID hne,
    if_pos ((flatMap_matching_eq_nil atoi h l serverID).mpr hno)]

/-- Instance of `FindServer_no_match` at the catalog of three servers: the empty
request selects the nearest server. -/
theorem FindServer_no_match_witness :
    FindServer Atoi heap3 catalog3 [] = Except.ok [0] :=
  FindServer_no_match Atoi heap3 catalog3 [] (by decide) (by simp)

/-- An id that no server of the catalog carries selects the nearest server. -/
theorem FindServer_unknown_id : FindServer Atoi heap3 catalog3 [44] = Except.ok [0] := by
  rfl

/-- Counterexample to C2 as stated: requesting the id of the second server before
that of the first returns them in that order, which is not a subsequence of the
catalog. -/
theorem FindServer_request_order_counterexample :
    FindServer Atoi heap3 catalog3 [22, 11] = Except.ok [1, 0]
      ∧ ¬ List.Sublist [1, 0] catalog3.Servers := by
  refine ⟨rfl, ?_⟩
  decide

/-- C2, amended. On a non-empty catalog with at least one matching id, the result
of `FindServer` is, for each requested id in the order requested, the catalog
entries with that id in catalog order: request order first, catalog order
within one id. -/
theorem FindServer_request_order {F : Type} (atoi : String → Int) (h : Heap F)
    (l : ServerList) (serverID : List Int)
    (hmatch : ∃ sid ∈ serverID, ∃ s ∈ l.Servers, sid = atoi (h s).ID) :
    FindServer atoi h l serverID
      = Except.ok (serverID.flatMap (fun sid =>
          l.Servers.filter (fun s => decide (sid = atoi (h s).ID))))
      ∧ ∀ sid, List.Sublist
          (l.Servers.filter (fun s => decide (sid = atoi (h s).ID))) l.Servers := by
  obtain ⟨sid, hsid, s, hs, heq⟩ := hmatch
  have hne : l.Servers ≠ [] := List.ne_nil_of_mem hs
  have hnn : ¬ serverID.flatMap (matching atoi h l) = [] := by
    rw [flatMap_matching_eq_nil]
    intro hall
    exact hall sid hsid s hs heq
  refine ⟨?_, fun sid => List.filter_sublist _⟩
  rw [FindServer_eq atoi h l serverID hne, if_neg hnn]
  rfl

/-- Instance of `FindServer_request_order` at the catalog of three servers, the
third id requested before the second. -/
theorem FindServer_request_order_witness :
    FindServer Atoi heap3 catalog3 [33, 22]
      = Except.ok ([33, 22].flatMap (fun sid =>
          catalog3.Servers.filter (fun s => decide (sid = Atoi (heap3 s).ID))))
      ∧ ∀ sid, List.Sublist
          (catalog3.Servers.filter (fun s => decide (sid = Atoi (heap3 s).ID)))
          catalog3.Servers :=
  FindServer_request_order Atoi heap3 catalog3 [33, 22] ⟨33, by simp, 2, by decide, by decide⟩

theorem count_matching {F : Type} (atoi : String → Int) (h : Heap F) (l : ServerList)
    (sid : Int) (s : Ptr) :
    (matching atoi h l sid).count s = if sid = atoi (h s).ID then l.Servers.count s else 0 := by
  unfold matching
  split
  · rename_i heq
    exact List.count_filter (by simpa using heq)
  · rename_i hneq
    rw [List.count_eq_zero]
    intro hmem
    exact hneq (by simpa using (List.mem_filter.mp hmem).2)

theorem count_flatMap_matching {F : Type} (atoi : String → Int) (h : Heap F) (l : ServerList)
    (serverID : List Int) (s : Ptr) :
    (serverID.flatMap (matching atoi h l)).count s
      = serverID.count (atoi (h s).ID) * l.Servers.count s := by
  induction serverID with
  | nil => simp
  | cons sid rest ih =>
    rw [List.flatMap_cons, List.count_append, ih, count_matching, List.count_cons]
    by_cases heq : sid = atoi (h s).ID
    · simp [heq, Nat.add_mul, Nat.add_comm]
    · have hne : ¬ (sid == atoi (h s).ID) = true := by simpa using heq
      simp [heq, hne]

/-- Counterexample to C3 as stated: the three ids are pairwise distinct, and
requesting the first id twice returns the first server twice. -/
theorem FindServer_duplicates_counterexample :
    (catalog3.Servers.map (fun s => (heap3 s).ID)).Nodup
      ∧ FindServer Atoi heap3 catalog3 [11, 11] = Except.ok [0, 0]
      ∧ List.count 0 [0, 0] = 2 ∧ List.length [0, 0] ≠ 1 := by
  refine ⟨by decide, rfl, by decide, by decide⟩

/-- C3, amended. Duplicates in the request are kept: on a catalog with pairwise
distinct server ids, a catalog entry whose id is requested appears in the result
of `FindServer` once for every occurrence of its id in the request. -/
theorem FindServer_duplicates {F : Type} (atoi : String → Int) (h : Heap F) (l : ServerList)
    (serverID : List Int) (s : Ptr)
    (hids : (l.Servers.map (fun s => (h s).ID)).Nodup) (hs : s ∈ l.Servers)
    (hreq : atoi (h s).ID ∈ serverID) :
    ∃ r, FindServer atoi h l serverID = Except.ok r
      ∧ r.count s = serverID.count (atoi (h s).ID) := by
  have hne : l.Servers ≠ [] := List.ne_nil_of_mem hs
  have hnn : ¬ serverID.flatMap (matching atoi h l) = [] := by
    rw [flatMap_matching_eq_nil]
    intro hall
    exact hall _ hreq s hs rfl
  refine ⟨serverID.flatMap (matching atoi h l), ?_, ?_⟩
  · rw [FindServer_eq atoi h l serverID hne, if_neg hnn]
  · rw [count_flatMap_matching, List.count_eq_one_of_mem (List.Nodup.of_map _ hids) hs,
      Nat.mul_one]

/-- Instance of `FindServer_duplicates` at the catalog of three servers: the first
id requested twice, the second once. -/
theorem FindServer_duplicates_witness :
    ∃ r, FindServer Atoi heap3 catalog3 [11, 22, 11] = Except.ok r
      ∧ r.count 0 = [11, 22, 11].count (Atoi (heap3 0).ID) :=
  FindServer_duplicates Atoi heap3 catalog3 [11, 22, 11] 0 (by decide) (by decide) (by decide)

/-- C4. `FindServer` returns an error exactly when the catalog is empty, whatever
the request; and a list returned without error is never empty. -/
theorem FindServer_error_iff {F : Type} (atoi : String → Int) (h : Heap F) (l : ServerList)
    (serverID : List Int) :
    ((∃ e, FindServer atoi h l serverID = Except.error e) ↔ l.Servers = [])
      ∧ ∀ r, FindServer atoi h l serverID = Except.ok r → r ≠ [] := by
  by_cases hne : l.Servers = []
  · have herr : FindServer atoi h l serverID = Except.error "no servers available" := by
      unfold FindServer
      simp [hne]
    refine ⟨⟨fun _ => hne, fun _ => ⟨_, herr⟩⟩, ?_⟩
    intro r hr
    rw [herr] at hr
    cases hr
  · rw [FindServer_eq atoi h l serverID hne]
    refine ⟨⟨?_, fun hnil => absurd hnil hne⟩, ?_⟩
    · rintro ⟨e, he⟩
      cases he
    · intro r hr
      injection hr with hr
      subst hr
      split
      · simp
      · assumption

/-- Instance of `FindServer_error_iff`: an error on the empty catalog even with a
request, a non-empty selection on the catalog of three servers. -/
theorem FindServer_error_iff_witness :
    FindServer Atoi heap3 { Servers := [] } [11] = Except.error "no servers available"
      ∧ ∀ r, FindServer Atoi heap3 catalog3 [11] = Except.ok r → r ≠ [] :=
  ⟨rfl, (FindServer_error_iff Atoi heap3 catalog3 [11]).2⟩

/-! ## The directory: distance annotation and sort -/

theorem Atoi_samples :
    Atoi "22" = 22 ∧ Atoi "-22" = -22 ∧ Atoi "+7" = 7 ∧ Atoi "abc" = 0 ∧ Atoi "-" = 0
      ∧ Atoi "99999999999999999999" = 9223372036854775807
      ∧ Atoi "99999999999999999999a" = 9223372036854775807
      ∧ Atoi "9223372036854775808a" = 0
      ∧ Atoi "-99999999999999999999" = -9223372036854775808 := by
  decide

/-- X6. In exact arithmetic `distance(a, a)` is 0: where `float64` is a field and
the library routines satisfy `sin² + cos² = 1`, `cos 0 = 1` and `acos 1 = 0`,
`distance` of a coordinate to itself is 0.  In `float64` the first identity
fails after rounding, and `distance` hands the sum to `Acos` as it is. -/
theorem distance_self_exact {F : Type} [Field F] (m : MathLib F)
    (hpyth : ∀ x, m.Sin x * m.Sin x + m.Cos x * m.Cos x = 1) (hcos : m.Cos 0 = 1)
    (hacos : m.Acos 1 = 0) (lat lon : F) :
    distance m lat lon lat lon = 0 := by
  unfold distance
  simp only [sub_self, hcos, mul_one, hpyth, hacos, mul_zero]

/-- Instance of `distance_self_exact` at latitude 6, longitude 0. -/
theorem distance_self_exact_witness : distance circleMath 6 0 6 0 = 0 :=
  distance_self_exact circleMath
    (by
      intro x
      have hx : (1 + x ^ 2 : ℚ) ≠ 0 := by positivity
      simp only [circleMath]
      field_simp
      ring)
    (by norm_num [circleMath]) (by norm_num [circleMath]) 6 0

theorem calcDistance_cons {F : Type} [OfScientific F] [Add F] [Sub F] [Mul F] [Div F]
    (m : MathLib F) (user : User) (h : Heap F) (s : Ptr) (rest : List Ptr) :
    calcDistance m user h (s :: rest)
      = calcDistance m user (h.set s { h s with Distance := annotated m user h s }) rest := by
  rfl

theorem calcDistance_eq {F : Type} [OfScientific F] [Add F] [Sub F] [Mul F] [Div F]
    (m : MathLib F) (user : User) (h : Heap F) (servers : List Ptr) (p : Ptr) :
    calcDistance m user h servers p
      = if p ∈ servers then { h p with Distance := annotated m user h p } else h p := by
  induction servers generalizing h with
  | nil => rfl
  | cons s rest ih =>
    rw [calcDistance_cons, ih]
    by_cases hps : p = s
    · subst hps
      by_cases hrest : p ∈ rest <;> simp [hrest, Heap.set, annotated]
    · by_cases hrest : p ∈ rest <;> simp [hrest, hps, Heap.set, annotated]

/-- X4. The loop "Calculate distance" assigns to every server of the list the value
of `distance` at its own parsed coordinates and the caller's, changes no other
field, and leaves the servers outside the list alone. -/
theorem calcDistance_spec {F : Type} [OfScientific F] [Add F] [Sub F] [Mul F] [Div F]
    (m : MathLib F) (user : User) (h : Heap F) (servers : List Ptr) (p : Ptr) :
    (p ∈ servers → calcDistance m user h servers p
        = { h p with
            Distance := distance m (m.ParseFloat (h p).Lat) (m.ParseFloat (h p).Lon)
              (m.ParseFloat user.Lat) (m.ParseFloat user.Lon) })
      ∧ (p ∉ servers → calcDistance m user h servers p = h p) := by
  rw [calcDistance_eq]
  constructor
  · intro hp
    rw [if_pos hp]
    rfl
  · intro hp
    rw [if_neg hp]

theorem length_Swap (l : Servers) (i j : Nat) : (Swap l i j).length = l.length := by
  unfold Swap
  split <;> simp

theorem Swap_eq (l : Servers) (i j : Nat) (hi : i < l.length) (hj : j < l.length) :
    Swap l i j = (l.set i l[j]).set j l[i] := by
  unfold Swap
  simp [List.getElem?_eq_getElem hi, List.getElem?_eq_getElem hj]

theorem Swap_perm (l : Servers) (i j : Nat) (hi : i < l.length) (hj : j < l.length) :
    (Swap l i j).Perm l := by
  rw [Swap_eq l i j hi hj, List.perm_iff_count]
  intro c
  have hi2 : i < (l.set i l[j]).length := by simpa using hi
  have hj2 : j < (l.set i l[j]).length := by simpa using hj
  rw [List.count_set _ _ _ _ hj2, List.count_set _ _ _ _ hi]
  have hci : (if (l[i] == c) = true then 1 else 0) ≤ l.count c := by
    split
    · rename_i heq
      have : l[i] = c := by simpa using heq
      exact List.count_pos_iff.mpr (this ▸ List.getElem_mem hi)
    · omega
  have hcj : (if (l[j] == c) = true then 1 else 0) ≤ l.count c := by
    split
    · rename_i heq
      have : l[j] = c := by simpa using heq
      exact List.count_pos_iff.mpr (this ▸ List.getElem_mem hj)
    · omega
  by_cases hij : i = j
  · subst hij
    simp only [List.getElem_set_self]
    omega
  · rw [List.getElem_set_ne hij]
    omega

/-- X5. `Swap` with both indexes in range exchanges the two elements and keeps
every other: the result has the same length, holds at `i` what was at `j` and at
`j` what was at `i`, and is a permutation of the slice. -/
theorem Swap_exchanges (svrs : Servers) (i j : Nat) (hi : i < svrs.length)
    (hj : j < svrs.length) :
    (Swap svrs i j).length = svrs.length
      ∧ (Swap svrs i j)[i]? = svrs[j]?
      ∧ (Swap svrs i j)[j]? = svrs[i]?
      ∧ (∀ k, k ≠ i → k ≠ j → (Swap svrs i j)[k]? = svrs[k]?)
      ∧ (Swap svrs i j).Perm svrs := by
  refine ⟨length_Swap svrs i j, ?_, ?_, ?_, Swap_perm svrs i j hi hj⟩
  · rw [Swap_eq svrs i j hi hj, List.getElem?_set, List.getElem?_set]
    by_cases hij : j = i
    · subst hij
      simp [hj]
    · simp [hij, hi, List.getElem?_eq_getElem hj]
  · rw [Swap_eq svrs i j hi hj, List.getElem?_set]
    simp [hj, List.getElem?_eq_getElem hi]
  · intro k hki hkj
    rw [Swap_eq svrs i j hi hj, List.getElem?_set, List.getElem?_set]
    simp [Ne.symm hki, Ne.symm hkj]

/-- Instance of `Swap_exchanges` on three addresses. -/
theorem Swap_exchanges_witness :
    (Swap [7, 8, 9] 0 2).length = ([7, 8, 9] : Servers).length
      ∧ (Swap [7, 8, 9] 0 2)[0]? = ([7, 8, 9] : Servers)[2]?
      ∧ (Swap [7, 8, 9] 0 2)[2]? = ([7, 8, 9] : Servers)[0]?
      ∧ (∀ k, k ≠ 0 → k ≠ 2 → (Swap [7, 8, 9] 0 2)[k]? = ([7, 8, 9] : Servers)[k]?)
      ∧ (Swap [7, 8, 9] 0 2).Perm [7, 8, 9] :=
  Swap_exchanges [7, 8, 9] 0 2 (by decide) (by decide)

theorem SwapsTo.trans {s t u : Servers} (h1 : SwapsTo s t) (h2 : SwapsTo t u) : SwapsTo s u := by
  induction h1 with
  | refl s => exact h2
  | step i j hi hj _ ih => exact SwapsTo.step i j hi hj (ih h2)

theorem SwapsTo.length_eq {s t : Servers} (h1 : SwapsTo s t) : t.length = s.length := by
  induction h1 with
  | refl s => rfl
  | step i j hi hj _ ih => rw [ih, length_Swap]

theorem SwapsTo.perm {s t : Servers} (h1 : SwapsTo s t) : t.Perm s := by
  induction h1 with
  | refl s => exact List.Perm.refl s
  | step i j hi hj _ ih => exact ih.trans (Swap_perm _ i j hi hj)

theorem SwapsTo.single (s : Servers) (i j : Nat) (hi : i < s.length) (hj : j < s.length) :
    SwapsTo s (Swap s i j) :=
  SwapsTo.step i j hi hj (SwapsTo.refl _)

theorem Less_eq {F : Type} [LinearOrder F] (h : Heap F) (l : Servers) (i j : Nat)
    (hi : i < l.length) (hj : j < l.length) :
    Less h l i j = decide ((h l[i]).Distance < (h l[j]).Distance) := by
  unfold Less
  simp [List.getElem?_eq_getElem hi, List.getElem?_eq_getElem hj]

/-- Under the contract of `sort.Sort`, the sort step returns a permutation of its
input in which a later element never has a smaller distance than an earlier one. -/
theorem sortByDistance_spec {F : Type} [LinearOrder F]
    (sortSort : Interface Servers → Servers → Servers) (hSort : SortContract sortSort)
    (h : Heap F) (servers : List Ptr) :
    (sortByDistance sortSort h servers).Perm servers
      ∧ ∀ i j (hj : j < (sortByDistance sortSort h servers).length) (hij : i < j),
          (h ((sortByDistance sortSort h servers).get ⟨i, by omega⟩)).Distance
            ≤ (h ((sortByDistance sortSort h servers).get ⟨j, hj⟩)).Distance := by
  obtain ⟨hswaps, hsorted⟩ := hSort F h servers
  refine ⟨hswaps.perm, ?_⟩
  intro i j hj hij
  have hlen : (sortSort (ByDistance h) servers).length = servers.length := hswaps.length_eq
  have hj2 : j < (sortSort (ByDistance h) servers).length := hj
  have hless := hsorted i j hij (by unfold Len; omega)
  rw [Less_eq h _ j i hj2 (by omega)] at hless
  have := of_decide_eq_false hless
  exact not_lt.mp this

theorem FetchServerList_heap {F : Type} [LinearOrder F] [OfScientific F] [Add F] [Sub F]
    [Mul F] [Div F] (sortSort : Interface Servers → Servers → Servers) (m : MathLib F)
    (user : User) (h : Heap F) (list : ServerList) :
    (FetchServerList sortSort m user h list).1 = calcDistance m user h list.Servers := by
  unfold FetchServerList
  dsimp only
  split <;> rfl

theorem FetchServerList_ok {F : Type} [LinearOrder F] [OfScientific F] [Add F] [Sub F]
    [Mul F] [Div F] (sortSort : Interface Servers → Servers → Servers) (m : MathLib F)
    (user : User) (h : Heap F) (list out : ServerList)
    (hout : (FetchServerList sortSort m user h list).2 = Except.ok out) :
    out.Servers = sortByDistance sortSort (calcDistance m user h list.Servers) list.Servers := by
  unfold FetchServerList at hout
  dsimp only at hout
  split at hout
  · cases hout
  · injection hout with hout
    rw [← hout]

/-! ## Insertion sort meets the contract of `sort.Sort` -/

theorem Swap_adjacent (A R : List Ptr) (x y : Ptr) :
    Swap (A ++ y :: x :: R) (A.length + 1) A.length = A ++ x :: y :: R := by
  unfold Swap
  have h1 : (A ++ y :: x :: R)[A.length + 1]? = some x := by
    rw [List.getElem?_append_right (by omega)]
    simp
  have h0 : (A ++ y :: x :: R)[A.length]? = some y := by
    rw [List.getElem?_append_right (by omega)]
    simp
  rw [h1, h0]
  simp only
  rw [List.set_append_right _ _ (by omega), List.set_append_right _ _ (by simp)]
  simp

theorem Less_adjacent {F : Type} [LinearOrder F] (h : Heap F) (A R : List Ptr) (x y : Ptr) :
    Less h (A ++ y :: x :: R) (A.length + 1) A.length
      = decide ((h x).Distance < (h y).Distance) := by
  unfold Less
  have h1 : (A ++ y :: x :: R)[A.length + 1]? = some x := by
    rw [List.getElem?_append_right (by omega)]
    simp
  have h0 : (A ++ y :: x :: R)[A.length]? = some y := by
    rw [List.getElem?_append_right (by omega)]
    simp
  rw [h1, h0]

/-- The inner loop of `insertionSort`, started at the element `x` that follows a
prefix given in reverse as `P`: `x` moves left past the elements of larger
distance. -/
theorem insertionInner_eq {F : Type} [LinearOrder F] (h : Heap F) (P R : List Ptr) (x : Ptr) :
    insertionInner (ByDistance h) 0 P.length (P.reverse ++ x :: R)
      = (P.dropWhile (fun y => decide ((h x).Distance < (h y).Distance))).reverse
          ++ x :: ((P.takeWhile (fun y => decide ((h x).Distance < (h y).Distance))).reverse
          ++ R) := by
  induction P generalizing R with
  | nil => rfl
  | cons y P ih =>
    have hform : (y :: P).reverse ++ x :: R = P.reverse ++ y :: x :: R := by simp
    have hlenr : P.length = P.reverse.length := by simp
    rw [hform, List.length_cons]
    unfold insertionInner
    have hless : (ByDistance h).Less (P.reverse ++ y :: x :: R) (P.length + 1) P.length
        = decide ((h x).Distance < (h y).Distance) := by
      show Less h _ _ _ = _
      rw [hlenr]
      exact Less_adjacent h P.reverse R x y
    have hswap : (ByDistance h).Swap (P.reverse ++ y :: x :: R) (P.length + 1) P.length
        = P.reverse ++ x :: y :: R := by
      show Swap _ _ _ = _
      rw [hlenr]
      exact Swap_adjacent P.reverse R x y
    rw [hless, hswap]
    by_cases hxy : (h x).Distance < (h y).Distance
    · simp only [hxy, decide_True, Nat.zero_lt_succ, and_self, ↓reduceIte, ih,
        List.dropWhile_cons, List.takeWhile_cons, List.reverse_cons, List.append_assoc,
        List.singleton_append]
    · simp [hxy]

theorem insertDesc_perm {F : Type} [LinearOrder F] (h : Heap F) (x : Ptr) (P : List Ptr) :
    (insertDesc h x P).Perm (x :: P) := by
  unfold insertDesc
  refine List.perm_middle.trans ?_
  rw [List.takeWhile_append_dropWhile]

theorem insertDesc_pairwise {F : Type} [LinearOrder F] (h : Heap F) (x : Ptr) (P : List Ptr)
    (hP : P.Pairwise (fun a b => (h b).Distance ≤ (h a).Distance)) :
    (insertDesc h x P).Pairwise (fun a b => (h b).Distance ≤ (h a).Distance) := by
  induction P with
  | nil => simp [insertDesc]
  | cons y P ih =>
    rw [List.pairwise_cons] at hP
    by_cases hxy : (h x).Distance < (h y).Distance
    · have hform : insertDesc h x (y :: P) = y :: insertDesc h x P := by
        simp [insertDesc, hxy]
      rw [hform, List.pairwise_cons]
      refine ⟨?_, ih hP.2⟩
      intro b hb
      rcases List.mem_cons.mp ((insertDesc_perm h x P).mem_iff.mp hb) with rfl | hbP
      · exact le_of_lt hxy
      · exact hP.1 b hbP
    · have hform : insertDesc h x (y :: P) = x :: y :: P := by
        simp [insertDesc, hxy]
      rw [hform, List.pairwise_cons, List.pairwise_cons]
      refine ⟨?_, hP.1, hP.2⟩
      intro b hb
      rcases List.mem_cons.mp hb with rfl | hbP
      · exact not_lt.mp hxy
      · exact le_trans (hP.1 b hbP) (not_lt.mp hxy)

theorem insertion_outer_eq {F : Type} [LinearOrder F] (h : Heap F) (R P : List Ptr) :
    (List.range' P.length R.length).foldl
        (fun s i => insertionInner (ByDistance h) 0 i s) (P.reverse ++ R)
      = (R.foldl (fun P x => insertDesc h x P) P).reverse := by
  induction R generalizing P with
  | nil => simp
  | cons x R ih =>
    have hlen : (insertDesc h x P).length = P.length + 1 := by
      rw [(insertDesc_perm h x P).length_eq, List.length_cons]
    have hstep : insertionInner (ByDistance h) 0 P.length (P.reverse ++ x :: R)
        = (insertDesc h x P).reverse ++ R := by
      rw [insertionInner_eq]
      simp [insertDesc]
    rw [List.length_cons, List.range'_succ, List.foldl_cons, hstep, ← hlen, ih, List.foldl_cons]

theorem foldl_insertDesc_pairwise {F : Type} [LinearOrder F] (h : Heap F) (R P : List Ptr)
    (hP : P.Pairwise (fun a b => (h b).Distance ≤ (h a).Distance)) :
    (R.foldl (fun P x => insertDesc h x P) P).Pairwise
      (fun a b => (h b).Distance ≤ (h a).Distance) := by
  induction R generalizing P with
  | nil => exact hP
  | cons x R ih => exact ih _ (insertDesc_pairwise h x P hP)

/-- Go's `insertionSort(data, 0, n)` leaves the whole slice in ascending order of
distance. -/
theorem insertionSort_pairwise {F : Type} [LinearOrder F] (h : Heap F) (s : Servers) :
    (insertionSort (ByDistance h) s 0 s.length).Pairwise
      (fun a b => (h a).Distance ≤ (h b).Distance) := by
  cases s with
  | nil => simp [insertionSort]
  | cons x R =>
    have hout := insertion_outer_eq h R [x]
    simp only [List.length_singleton, List.reverse_singleton, List.singleton_append] at hout
    unfold insertionSort
    simp only [Nat.zero_add, List.length_cons, Nat.add_sub_cancel]
    rw [hout, List.pairwise_reverse]
    exact foldl_insertDesc_pairwise h R [x] (List.pairwise_singleton _ _)

theorem insertionInner_swaps {F : Type} [LinearOrder F] (h : Heap F) (a j : Nat) (s : Servers)
    (hj : j < s.length) : SwapsTo s (insertionInner (ByDistance h) a j s) := by
  induction j generalizing s with
  | zero => exact SwapsTo.refl s
  | succ j ih =>
    unfold insertionInner
    split
    · refine SwapsTo.step (j + 1) j hj (by omega) ?_
      exact ih (Swap s (j + 1) j) (by rw [length_Swap]; omega)
    · exact SwapsTo.refl s

theorem foldl_swaps (f : Servers → Nat → Servers) (n : Nat)
    (hf : ∀ s i, s.length = n → i < n → SwapsTo s (f s i)) (idxs : List Nat) (s : Servers)
    (hs : s.length = n) (hidx : ∀ i ∈ idxs, i < n) : SwapsTo s (idxs.foldl f s) := by
  induction idxs generalizing s with
  | nil => exact SwapsTo.refl s
  | cons i idxs ih =>
    have h1 := hf s i hs (hidx i (List.mem_cons_self _ _))
    rw [List.foldl_cons]
    refine h1.trans (ih _ ?_ ?_)
    · rw [h1.length_eq, hs]
    · intro k hk
      exact hidx k (List.mem_cons_of_mem _ hk)

theorem insertionSort_swaps {F : Type} [LinearOrder F] (h : Heap F) (s : Servers) :
    SwapsTo s (insertionSort (ByDistance h) s 0 s.length) := by
  unfold insertionSort
  refine foldl_swaps _ s.length ?_ _ s rfl ?_
  · intro t i ht hi
    exact insertionInner_swaps h 0 i t (by omega)
  · intro i hi
    rw [List.mem_range'_1] at hi
    omega

theorem shellPass_swaps {F : Type} [LinearOrder F] (h : Heap F) (s : Servers) :
    SwapsTo s (shellPass (ByDistance h) s 0 s.length) := by
  unfold shellPass
  refine foldl_swaps _ s.length ?_ _ s rfl ?_
  · intro t i ht hi
    split
    · exact SwapsTo.single t i (i - 6) (by omega) (by omega)
    · exact SwapsTo.refl t
  · intro i hi
    rw [List.mem_range'_1] at hi
    omega

theorem sorted_of_pairwise {F : Type} [LinearOrder F] (h : Heap F) (out : Servers)
    (hp : out.Pairwise (fun a b => (h a).Distance ≤ (h b).Distance)) (i j : Nat)
    (hij : i < j) (hj : j < out.length) : Less h out j i = false := by
  rw [Less_eq h out j i hj (by omega)]
  have hle := List.pairwise_iff_getElem.mp hp i j (by omega) hj hij
  exact decide_eq_false (not_lt.mpr hle)

/-- Insertion sort alone meets the contract of `sort.Sort`. -/
theorem sortInsertion_contract : SortContract sortInsertion := by
  intro F _ h svrs
  have hsw : SwapsTo svrs (sortInsertion (ByDistance h) svrs) := insertionSort_swaps h svrs
  have hp : (sortInsertion (ByDistance h) svrs).Pairwise
      (fun a b => (h a).Distance ≤ (h b).Distance) := insertionSort_pairwise h svrs
  refine ⟨hsw, ?_⟩
  intro i j hij hj
  refine sorted_of_pairwise h (sortInsertion (ByDistance h) svrs) hp i j hij ?_
  rw [hsw.length_eq]
  exact hj

/-- The gap-6 pass followed by insertion sort meets the contract of `sort.Sort`. -/
theorem sortShell_contract : SortContract sortShell := by
  intro F _ h svrs
  have h1 : SwapsTo svrs (shellPass (ByDistance h) svrs 0 svrs.length) := shellPass_swaps h svrs
  have hlen := h1.length_eq
  have h2 := insertionSort_swaps h (shellPass (ByDistance h) svrs 0 svrs.length)
  have hp := insertionSort_pairwise h (shellPass (ByDistance h) svrs 0 svrs.length)
  rw [hlen] at h2 hp
  have hsw : SwapsTo svrs (sortShell (ByDistance h) svrs) := h1.trans h2
  have hp2 : (sortShell (ByDistance h) svrs).Pairwise
      (fun a b => (h a).Distance ≤ (h b).Distance) := hp
  refine ⟨hsw, ?_⟩
  intro i j hij hj
  refine sorted_of_pairwise h (sortShell (ByDistance h) svrs) hp2 i j hij ?_
  rw [hsw.length_eq]
  exact hj

/-! ## The catalog is sorted by distance, and not stably -/

/-- C5. For every parsed list that is not empty, over distances without NaN and
with `sort.Sort` behaving as documented, `FetchServerList` returns no error and a
list that is a permutation of the parsed entries in which, after the distance
annotation and the sort, every adjacent pair satisfies
`servers[i].Distance <= servers[i+1].Distance`. -/
theorem FetchServerList_sorted {F : Type} [LinearOrder F] [OfScientific F] [Add F] [Sub F]
    [Mul F] [Div F] (sortSort : Interface Servers → Servers → Servers)
    (hSort : SortContract sortSort) (m : MathLib F) (user : User) (h : Heap F)
    (list : ServerList) (hne : list.Servers ≠ []) :
    ∃ out, (FetchServerList sortSort m user h list).2 = Except.ok out
      ∧ out.Servers.Perm list.Servers
      ∧ ∀ i (hi : i + 1 < out.Servers.length),
          ((FetchServerList sortSort m user h list).1 (out.Servers.get ⟨i, by omega⟩)).Distance
            ≤ ((FetchServerList sortSort m user h list).1
                (out.Servers.get ⟨i + 1, hi⟩)).Distance := by
  obtain ⟨hperm, hsorted⟩ :=
    sortByDistance_spec sortSort hSort (calcDistance m user h list.Servers) list.Servers
  have hpos : 0 < list.Servers.length := List.length_pos.mpr hne
  have hlen : ¬ (sortByDistance sortSort (calcDistance m user h list.Servers)
      list.Servers).length ≤ 0 := by
    rw [hperm.length_eq]
    omega
  refine ⟨ServerList.mk
    (sortByDistance sortSort (calcDistance m user h list.Servers) list.Servers), ?_, hperm, ?_⟩
  · unfold FetchServerList
    simp only [hlen, ↓reduceIte]
  · intro i hi
    rw [FetchServerList_heap]
    exact hsorted i (i + 1) hi (by omega)

/-- Instance of `FetchServerList_sorted`: two servers at latitudes 30 and 10 and a
caller at latitude 0, insertion sort as `sort.Sort`. -/
theorem FetchServerList_sorted_witness :
    ∃ out, (FetchServerList sortInsertion polyMath user0 heapGeo { Servers := [0, 1] }).2
        = Except.ok out
      ∧ out.Servers.Perm [0, 1]
      ∧ ∀ i (hi : i + 1 < out.Servers.length),
          ((FetchServerList sortInsertion polyMath user0 heapGeo { Servers := [0, 1] }).1
              (out.Servers.get ⟨i, by omega⟩)).Distance
            ≤ ((FetchServerList sortInsertion polyMath user0 heapGeo { Servers := [0, 1] }).1
                (out.Servers.get ⟨i + 1, hi⟩)).Distance :=
  FetchServerList_sorted sortInsertion sortInsertion_contract polyMath user0 heapGeo
    { Servers := [0, 1] } (by decide)

theorem heap13_choosePivot :
    choosePivot (ByDistance heap13) catalog13 0 13 = (6, sortedHint.increasingHint) := by
  decide

theorem heap13_partialInsertionSort :
    partialInsertionSort (ByDistance heap13) catalog13 0 13 = (catalog13, false) := by
  decide

theorem heap13_partition :
    partition (ByDistance heap13) catalog13 0 13 6
      = ([6, 1, 2, 3, 4, 5, 0, 7, 8, 9, 10, 11, 12], 0, true) := by
  decide

theorem heap13_insertionSort_left :
    insertionSort (ByDistance heap13) [6, 1, 2, 3, 4, 5, 0, 7, 8, 9, 10, 11, 12] 0 0
      = [6, 1, 2, 3, 4, 5, 0, 7, 8, 9, 10, 11, 12] := by
  decide

theorem heap13_insertionSort_right :
    insertionSort (ByDistance heap13) [6, 1, 2, 3, 4, 5, 0, 7, 8, 9, 10, 11, 12] 1 13
      = [6, 3, 1, 0, 2, 4, 5, 7, 8, 9, 10, 11, 12] := by
  decide

/-- `sort.Sort` of Go 1.19 and later on more than one element starts `pdqsort` on
the whole range. -/
theorem sortPdq_start {σ : Type} (next : Nat → Nat) (data : Interface σ) (s : σ)
    (n limit : Nat) (hn : data.Len s = n) (hmore : ¬ n ≤ 1) (hlimit : bitsLen n = limit) :
    sortPdq next data s = pdqsort next data (n + 1) 0 n limit true true s := by
  unfold sortPdq
  simp only [hn, hmore, hlimit, ↓reduceIte]

/-- A round of `pdqsort` on a range of at most 12 elements is `insertionSort`. -/
theorem pdqsort_short {σ : Type} (next : Nat → Nat) (data : Interface σ)
    (rounds a b limit : Nat) (wasBalanced wasPartitioned : Bool) (s : σ) (hlen : b - a ≤ 12) :
    pdqsort next data (rounds + 1) a b limit wasBalanced wasPartitioned s
      = insertionSort data s a b := by
  rw [pdqsort]
  simp only [hlen, ↓reduceIte]

/-- A first round of `pdqsort` from index 0 on a longer range that is neither
found sorted nor reversed: one `partition`, the shorter left part sorted first. -/
theorem pdqsort_partition_left {σ : Type} (next : Nat → Nat) (data : Interface σ)
    (rounds b limit : Nat) (s s1 : σ) (pivot mid : Nat) (already : Bool)
    (hlen : ¬ b - 0 ≤ 12) (hlimit : ¬ limit = 0)
    (hpivot : choosePivot data s 0 b = (pivot, sortedHint.increasingHint))
    (htried : partialInsertionSort data s 0 b = (s, false))
    (hpart : partition data s 0 b pivot = (s1, mid, already))
    (hleft : mid - 0 < b - mid) :
    pdqsort next data (rounds + 1) 0 b limit true true s
      = pdqsort next data rounds (mid + 1) b limit (decide ((b - 0) / 8 ≤ mid - 0)) already
          (pdqsort next data rounds 0 mid limit true true s1) := by
  rw [pdqsort]
  simp only [hlen, hlimit, hpivot, htried, hpart, hleft, ↓reduceIte, Bool.true_eq_false,
    Bool.false_eq_true, Nat.lt_irrefl, false_and, and_self, reduceCtorEq]

/-- The run of `sort.Sort` of Go 1.19 and later on the thirteen servers: one
partition around the server at address 6, then insertion sort of the twelve
places behind it. -/
theorem heap13_sortPdq (next : Nat → Nat) :
    sortByDistance (sortPdq next) heap13 catalog13
      = [6, 3, 1, 0, 2, 4, 5, 7, 8, 9, 10, 11, 12] := by
  unfold sortByDistance
  rw [sortPdq_start next (ByDistance heap13) catalog13 13 4 rfl (by decide) (by decide),
    pdqsort_partition_left next (ByDistance heap13) 13 13 4 catalog13
    [6, 1, 2, 3, 4, 5, 0, 7, 8, 9, 10, 11, 12] 6 0 true (by decide) (by decide)
    heap13_choosePivot heap13_partialInsertionSort heap13_partition (by decide)]
  rw [pdqsort_short next (ByDistance heap13) 12 0 0 4 true true _ (by decide),
    heap13_insertionSort_left,
    pdqsort_short next (ByDistance heap13) 12 (0 + 1) 13 4 _ true _ (by decide)]
  exact heap13_insertionSort_right

/-- Counterexample to C6 as stated, for either generation of `sort.Sort`.  With
the routine Go 1.6 to 1.18 runs on a short slice, which meets the documented
contract, the two servers at distance 2 among seven leave the sort step in the
opposite order.  With `sort.Sort` of Go 1.19 and later, whatever its
pseudo-random step, the two servers at distance 7 among thirteen do: address 0
precedes address 1 in the document, address 1 precedes address 0 in the
catalog. -/
theorem sortByDistance_unstable_counterexample :
    (SortContract sortShell
      ∧ (heap7 0).Distance = (heap7 1).Distance
      ∧ sortByDistance sortShell heap7 catalog7 = [6, 1, 0, 2, 3, 4, 5])
    ∧ ((heap13 0).Distance = (heap13 1).Distance
      ∧ ∀ next : Nat → Nat,
          sortByDistance (sortPdq next) heap13 catalog13
            = [6, 3, 1, 0, 2, 4, 5, 7, 8, 9, 10, 11, 12]) := by
  refine ⟨⟨sortShell_contract, rfl, ?_⟩, rfl, heap13_sortPdq⟩
  decide

theorem Atoi_examples : Atoi "" = 0 ∧ Atoi "0" = 0 ∧ Atoi "10" = 10 ∧ Atoi "30" = 30 := by
  decide

theorem heapGeo_distance_far : (calcDistance polyMath user0 heapGeo [0, 1] 0).Distance
    = 17866077822586896782309657 / 4662505966546824192000 := by
  rw [calcDistance_eq]
  norm_num [annotated, distance, polyMath, heapGeo, heapOf, mkServer, user0, Atoi_examples]

theorem heapGeo_distance_near : (calcDistance polyMath user0 heapGeo [0, 1] 1).Distance
    = 9253945717795746879299518553 / 3398966849612634835968000 := by
  rw [calcDistance_eq]
  norm_num [annotated, distance, polyMath, heapGeo, heapOf, mkServer, user0, Atoi_examples]

theorem heapGeo_sorted :
    sortByDistance sortInsertion (calcDistance polyMath user0 heapGeo [0, 1]) [0, 1] = [1, 0] := by
  simp [sortByDistance, sortInsertion, insertionSort, insertionInner, ByDistance, Less, Swap,
    Len, List.range', heapGeo_distance_far, heapGeo_distance_near]
  norm_num

theorem heapGeo_fetched :
    (FetchServerList sortInsertion polyMath user0 heapGeo { Servers := [0, 1] }).2
      = Except.ok { Servers := [1, 0] } := by
  unfold FetchServerList
  simp [heapGeo_sorted]

/-- C6, amended. For every parsed list with no NaN distances, the distance sort
orders by distance only: in the catalog `FetchServerList` returns, with
`sort.Sort` behaving as documented, an entry of strictly smaller distance stands
before every entry of larger distance; the order among entries of equal distance
is whatever `sort.Sort` leaves. -/
theorem FetchServerList_nearer_first {F : Type} [LinearOrder F] [OfScientific F] [Add F]
    [Sub F] [Mul F] [Div F] (sortSort : Interface Servers → Servers → Servers)
    (hSort : SortContract sortSort) (m : MathLib F) (user : User) (h : Heap F)
    (list out : ServerList)
    (hout : (FetchServerList sortSort m user h list).2 = Except.ok out)
    (i j : Nat) (hi : i < out.Servers.length) (hj : j < out.Servers.length)
    (hlt : ((FetchServerList sortSort m user h list).1 (out.Servers.get ⟨i, hi⟩)).Distance
      < ((FetchServerList sortSort m user h list).1 (out.Servers.get ⟨j, hj⟩)).Distance) :
    i < j := by
  obtain ⟨_, hsorted⟩ :=
    sortByDistance_spec sortSort hSort (calcDistance m user h list.Servers) list.Servers
  have hval := FetchServerList_ok sortSort m user h list out hout
  obtain ⟨servers⟩ := out
  simp only at hval
  subst hval
  rw [FetchServerList_heap] at hlt
  by_contra hnot
  rcases Nat.lt_or_eq_of_le (Nat.le_of_not_lt hnot) with hji | hji
  · exact absurd hlt (not_lt.mpr (hsorted j i hi hji))
  · subst hji
    exact lt_irrefl _ hlt

/-- Instance of `FetchServerList_nearer_first`: two servers at latitudes 30 and 10
and a caller at latitude 0, insertion sort as `sort.Sort`; the catalog returned
has the server at latitude 10 first. -/
theorem FetchServerList_nearer_first_witness :
    (FetchServerList sortInsertion polyMath user0 heapGeo { Servers := [0, 1] }).2
        = Except.ok { Servers := [1, 0] }
      ∧ (0 : Nat) < 1 :=
  ⟨heapGeo_fetched,
   FetchServerList_nearer_first sortInsertion sortInsertion_contract polyMath user0 heapGeo
    { Servers := [0, 1] } { Servers := [1, 0] } heapGeo_fetched 0 1 (by decide) (by decide)
    (by
      rw [FetchServerList_heap]
      simp only [List.get_eq_getElem, List.getElem_cons_zero, List.getElem_cons_succ,
        heapGeo_distance_far, heapGeo_distance_near]
      norm_num)⟩

/-! ## The report: `ShowResult` -/

theorem line_loop_eq {F : Type} (h : Heap F) (svrs : Servers) (out : List (Output F)) :
    svrs.foldl (fun out s =>
      out ++ [Output.logger "[%4s] Download: %5.2f Mbit/s, Upload: %5.2f Mbit/s\n"
        [Arg.str (h s).ID, Arg.float (h s).DLSpeed, Arg.float (h s).ULSpeed]]) out
      = out ++ svrs.map (targetLine h) := by
  induction svrs generalizing out with
  | nil => simp
  | cons s rest ih =>
    rw [List.foldl_cons, ih, List.map_cons, List.append_assoc]
    rfl

theorem avg_loop_eq {F : Type} [Add F] (h : Heap F) (svrs : Servers) (avg : F × F) :
    svrs.foldl (fun avg s => (avg.1 + (h s).DLSpeed, avg.2 + (h s).ULSpeed)) avg
      = ((svrs.map (fun s => (h s).DLSpeed)).foldl (fun acc x => acc + x) avg.1,
         (svrs.map (fun s => (h s).ULSpeed)).foldl (fun acc x => acc + x) avg.2) := by
  induction svrs generalizing avg with
  | nil => rfl
  | cons s rest ih =>
    rw [List.foldl_cons, ih]
    rfl

/-- The print calls of `ShowResult` for a list of exactly one member. -/
theorem ShowResult_one {F : Type} [OfScientific F] [Add F] [Div F] [NatCast F]
    (h : Heap F) (s : Ptr) :
    ShowResult h [s]
      = [Output.stdout " \n",
         Output.logger "Download: %5.2f Mbit/s\n" [Arg.float (h s).DLSpeed],
         Output.logger "Upload: %5.2f Mbit/s\n" [Arg.float (h s).ULSpeed]] := by
  unfold ShowResult
  simp

/-- The print calls of `ShowResult` for a list that does not have exactly one
member. -/
theorem ShowResult_several {F : Type} [OfScientific F] [Add F] [Div F] [NatCast F]
    (h : Heap F) (svrs : Servers) (hlen : svrs.length ≠ 1) :
    ShowResult h svrs
      = Output.stdout " \n" :: svrs.map (targetLine h)
        ++ [Output.logger "Download Avg: %5.2f Mbit/s\n"
              [Arg.float (sumInOrder (svrs.map (fun s => (h s).DLSpeed))
                / ((svrs.length : Nat) : F))],
            Output.logger "Upload Avg: %5.2f Mbit/s\n"
              [Arg.float (sumInOrder (svrs.map (fun s => (h s).ULSpeed))
                / ((svrs.length : Nat) : F))]] := by
  unfold ShowResult
  simp only [hlen, ↓reduceDIte, line_loop_eq, avg_loop_eq, sumInOrder]
  rfl

/-- C7. For a target list with more than one member, the last two print calls of
`ShowResult` are the "Download Avg" line carrying the sum of the targets'
`DLSpeed` (accumulated from 0.0 in target order) divided by the number of
targets, and the "Upload Avg" line carrying the same for `ULSpeed`. -/
theorem ShowResult_average {F : Type} [OfScientific F] [Add F] [Div F] [NatCast F]
    (h : Heap F) (svrs : Servers) (hlen : 1 < svrs.length) :
    (ShowResult h svrs).drop (1 + svrs.length)
      = [Output.logger "Download Avg: %5.2f Mbit/s\n"
            [Arg.float (sumInOrder (svrs.map (fun s => (h s).DLSpeed))
              / ((svrs.length : Nat) : F))],
         Output.logger "Upload Avg: %5.2f Mbit/s\n"
            [Arg.float (sumInOrder (svrs.map (fun s => (h s).ULSpeed))
              / ((svrs.length : Nat) : F))]] := by
  rw [ShowResult_several h svrs (by omega)]
  have hl : (Output.stdout " \n" :: svrs.map (targetLine h)).length = 1 + svrs.length := by
    simp [Nat.add_comm]
  rw [← hl, List.cons_append, ← List.cons_append, List.drop_left]

/-- Instance of `ShowResult_average` at download rates 10, 20, 30 and upload rates
1, 2, 3: the averages reported are 20 and 2. -/
theorem ShowResult_average_witness :
    (ShowResult heapRates [0, 1, 2]).drop (1 + 3)
      = [Output.logger "Download Avg: %5.2f Mbit/s\n" [Arg.float (20 : ℚ)],
         Output.logger "Upload Avg: %5.2f Mbit/s\n" [Arg.float (2 : ℚ)]] := by
  have key := ShowResult_average heapRates [0, 1, 2] (by decide)
  have hd : sumInOrder ([0, 1, 2].map (fun s => (heapRates s).DLSpeed))
      / (([0, 1, 2] : Servers).length : ℚ) = 20 := by
    norm_num [sumInOrder, heapRates, heapOf, mkServer]
  have hu : sumInOrder ([0, 1, 2].map (fun s => (heapRates s).ULSpeed))
      / (([0, 1, 2] : Servers).length : ℚ) = 2 := by
    norm_num [sumInOrder, heapRates, heapOf, mkServer]
  rw [hd, hu] at key
  exact key

/-- C8. For a list with exactly one member `ShowResult` prints, after the blank
line on standard output, one download line and one upload line carrying that
target's `DLSpeed` and `ULSpeed`, and no average line.  For a list with more than
one member it prints one line per target, in target order, none of them an
average line, followed by exactly one "Download Avg" and one "Upload Avg"
line. -/
theorem ShowResult_shape {F : Type} [OfScientific F] [Add F] [Div F] [NatCast F]
    (h : Heap F) (svrs : Servers) :
    (∀ s, svrs = [s] →
      ShowResult h svrs
        = [Output.stdout " \n",
           Output.logger "Download: %5.2f Mbit/s\n" [Arg.float (h s).DLSpeed],
           Output.logger "Upload: %5.2f Mbit/s\n" [Arg.float (h s).ULSpeed]]
      ∧ (ShowResult h svrs).all (fun o => !isAvgLine o) = true)
    ∧ (1 < svrs.length →
      ∃ dl ul : F,
        ShowResult h svrs
          = Output.stdout " \n" :: svrs.map (targetLine h)
            ++ [Output.logger "Download Avg: %5.2f Mbit/s\n" [Arg.float dl],
                Output.logger "Upload Avg: %5.2f Mbit/s\n" [Arg.float ul]]
        ∧ (svrs.map (targetLine h)).all (fun o => !isAvgLine o) = true) := by
  constructor
  · rintro s rfl
    rw [ShowResult_one]
    refine ⟨rfl, ?_⟩
    simp only [List.all_cons, List.all_nil, isAvgLine]
    decide
  · intro hlen
    refine ⟨_, _, ShowResult_several h svrs (by omega), ?_⟩
    rw [List.all_eq_true]
    intro o ho
    obtain ⟨s, _, rfl⟩ := List.mem_map.mp ho
    simp only [targetLine, isAvgLine]
    decide

/-- Instance of `ShowResult_shape`: the report for the single target at address 1,
and the report for the three targets. -/
theorem ShowResult_shape_witness :
    ShowResult heapRates [1]
        = [Output.stdout " \n",
           Output.logger "Download: %5.2f Mbit/s\n" [Arg.float (heapRates 1).DLSpeed],
           Output.logger "Upload: %5.2f Mbit/s\n" [Arg.float (heapRates 1).ULSpeed]]
    ∧ ∃ dl ul : ℚ,
        ShowResult heapRates [0, 1, 2]
          = Output.stdout " \n" :: [0, 1, 2].map (targetLine heapRates)
            ++ [Output.logger "Download Avg: %5.2f Mbit/s\n" [Arg.float dl],
                Output.logger "Upload Avg: %5.2f Mbit/s\n" [Arg.float ul]]
        ∧ ([0, 1, 2].map (targetLine heapRates)).all (fun o => !isAvgLine o) = true :=
  ⟨((ShowResult_shape heapRates [1]).1 1 rfl).1,
   (ShowResult_shape heapRates [0, 1, 2]).2 (by decide)⟩

/-! ## The orchestrator: `StartTest` -/

theorem startTestStep_heap {W F : Type} (P : Probes W F) (st : TestState W F) (s : Ptr) :
    (startTestStep P st s).heap
      = st.heap.set s { st.heap s with
          DLSpeed := (probeTarget P (st.heap s).URL st.world).1.2.1
          ULSpeed := (probeTarget P (st.heap s).URL st.world).1.2.2 } := by
  funext q
  simp only [startTestStep, Heap.set, probeTarget]
  by_cases hq : q = s <;> simp [hq]

theorem startTestStep_world {W F : Type} (P : Probes W F) (st : TestState W F) (s : Ptr) :
    (startTestStep P st s).world = (probeTarget P (st.heap s).URL st.world).2 := by
  rfl

theorem startTestStep_out {W F : Type} (P : Probes W F) (st : TestState W F) (s : Ptr) :
    (startTestStep P st s).out = st.out ++ Show (st.heap s) := by
  rfl

theorem startTestStep_URL {W F : Type} (P : Probes W F) (st : TestState W F) (s p : Ptr) :
    ((startTestStep P st s).heap p).URL = (st.heap p).URL := by
  rw [startTestStep_heap]
  simp only [Heap.set]
  by_cases hp : p = s <;> simp [hp]

theorem startTestStep_Latency {W F : Type} (P : Probes W F) (st : TestState W F) (s p : Ptr) :
    ((startTestStep P st s).heap p).Latency = (st.heap p).Latency := by
  rw [startTestStep_heap]
  simp only [Heap.set]
  by_cases hp : p = s <;> simp [hp]

theorem StartTest_cons {W F : Type} (P : Probes W F) (s : Ptr) (rest : Servers)
    (st : TestState W F) :
    StartTest P (s :: rest) st = StartTest P rest (startTestStep P st s) := by
  rfl

/-- X1. `StartTest` never assigns `Latency`: every server has afterwards the
latency it had before. -/
theorem StartTest_Latency_unchanged {W F : Type} (P : Probes W F) (svrs : Servers)
    (st : TestState W F) (p : Ptr) :
    ((StartTest P svrs st).heap p).Latency = (st.heap p).Latency := by
  induction svrs generalizing st with
  | nil => rfl
  | cons s rest ih => rw [StartTest_cons, ih, startTestStep_Latency]

theorem StartTest_untouched {W F : Type} (P : Probes W F) (svrs : Servers)
    (st : TestState W F) (p : Ptr) (hp : p ∉ svrs) :
    (StartTest P svrs st).heap p = st.heap p := by
  induction svrs generalizing st with
  | nil => rfl
  | cons s rest ih =>
    rw [StartTest_cons, ih _ (fun hmem => hp (List.mem_cons_of_mem _ hmem)), startTestStep_heap]
    have hps : p ≠ s := fun heq => hp (heq ▸ List.mem_cons_self _ _)
    simp [Heap.set, hps]

theorem probeAll_congr {W F : Type} (P : Probes W F) (h1 h2 : Heap F)
    (hurl : ∀ p, (h1 p).URL = (h2 p).URL) (svrs : Servers) (w : W) :
    probeAll P h1 svrs w = probeAll P h2 svrs w := by
  induction svrs generalizing w with
  | nil => rfl
  | cons s rest ih => simp only [probeAll, hurl s, ih]

/-- X2. `StartTest` on a list of distinct targets: the server of the `i`-th target
is afterwards what it was before except for `DLSpeed` and `ULSpeed`, which hold
the results of the download and the upload probe run for that target, both
probes having been given the latency just measured for it. -/
theorem StartTest_stores {W F : Type} (P : Probes W F) (svrs : Servers)
    (st : TestState W F) (hnd : svrs.Nodup) (i : Nat) (hi : i < svrs.length)
    (latency : Int) (dl ul : F)
    (hres : (probeAll P st.heap svrs st.world).1[i]? = some (latency, dl, ul)) :
    (StartTest P svrs st).heap (svrs.get ⟨i, hi⟩)
      = { st.heap (svrs.get ⟨i, hi⟩) with DLSpeed := dl, ULSpeed := ul } := by
  induction svrs generalizing st i with
  | nil => simp at hi
  | cons s rest ih =>
    rw [List.nodup_cons] at hnd
    rw [StartTest_cons]
    cases i with
    | zero =>
      simp only [probeAll, List.getElem?_cons_zero, Option.some.injEq] at hres
      simp only [List.get_eq_getElem, List.getElem_cons_zero]
      rw [StartTest_untouched P rest _ s hnd.1, startTestStep_heap]
      simp [Heap.set, hres]
    | succ i =>
      have hi2 : i < rest.length := by simpa using hi
      have hmem : rest.get ⟨i, hi2⟩ ∈ rest := List.get_mem _ _ _
      have hne : rest.get ⟨i, hi2⟩ ≠ s := fun heq => hnd.1 (heq ▸ hmem)
      have hres2 : (probeAll P (startTestStep P st s).heap rest
          (startTestStep P st s).world).1[i]? = some (latency, dl, ul) := by
        rw [probeAll_congr P _ st.heap (startTestStep_URL P st s), startTestStep_world]
        simpa [probeAll] using hres
      have key := ih (startTestStep P st s) hnd.2 i hi2 hres2
      have hold : (startTestStep P st s).heap (rest.get ⟨i, hi2⟩)
          = st.heap (rest.get ⟨i, hi2⟩) := by
        rw [startTestStep_heap]
        exact if_neg hne
      rw [hold] at key
      exact key

/-- Instance of `StartTest_stores` at the first of two targets. -/
theorem StartTest_stores_witness :
    (StartTest probes5 [0, 1] { heap := heap3, world := 0, out := [] }).heap
        (([0, 1] : Servers).get ⟨0, by decide⟩)
      = { heap3 (([0, 1] : Servers).get ⟨0, by decide⟩) with DLSpeed := 10, ULSpeed := 20 } :=
  StartTest_stores probes5 [0, 1] { heap := heap3, world := 0, out := [] } (by decide) 0
    (by decide) 5000000 10 20 (by simp [probeAll, probeTarget, probes5])

/-- X3. End to end, `Speedtest.ShowResult` on a non-empty catalog with a request
that matches no server (the empty request included): only the nearest server is
announced and probed, and the report is one download line and one upload line
with the rates measured for it, without an average line. -/
theorem Speedtest_ShowResult_nearest {W F : Type} [OfScientific F] [Add F] [Div F]
    [NatCast F] (atoi : String → Int) (P : Probes W F) (l : ServerList)
    (serverIds : List Int) (st : TestState W F) (hne : l.Servers ≠ [])
    (hno : ∀ sid ∈ serverIds, ∀ s ∈ l.Servers, sid ≠ atoi (st.heap s).ID) :
    (Speedtest.ShowResult atoi P l serverIds st).out
        = st.out ++ Show (st.heap (l.Servers.head hne))
          ++ [Output.stdout " \n",
              Output.logger "Download: %5.2f Mbit/s\n"
                [Arg.float (probeTarget P (st.heap (l.Servers.head hne)).URL st.world).1.2.1],
              Output.logger "Upload: %5.2f Mbit/s\n"
                [Arg.float (probeTarget P (st.heap (l.Servers.head hne)).URL st.world).1.2.2]]
      ∧ (Speedtest.ShowResult atoi P l serverIds st).world
        = (probeTarget P (st.heap (l.Servers.head hne)).URL st.world).2 := by
  unfold Speedtest.ShowResult
  rw [FindServer_eq atoi st.heap l serverIds hne,
    if_pos ((flatMap_matching_eq_nil atoi st.heap l serverIds).mpr hno)]
  simp only [ShowResult_one, StartTest, List.foldl_cons, List.foldl_nil, startTestStep_out,
    startTestStep_world, startTestStep_heap, Heap.set, ↓reduceIte, and_true]

/-- Instance of `Speedtest_ShowResult_nearest`: the catalog of three servers and no
requested id. -/
theorem Speedtest_ShowResult_nearest_witness :
    (Speedtest.ShowResult Atoi probes5 catalog3 [] { heap := heap3, world := 0, out := [] }).out
        = [] ++ Show (heap3 (catalog3.Servers.head (by decide)))
          ++ [Output.stdout " \n",
              Output.logger "Download: %5.2f Mbit/s\n"
                [Arg.float (probeTarget probes5
                  (heap3 (catalog3.Servers.head (by decide))).URL 0).1.2.1],
              Output.logger "Upload: %5.2f Mbit/s\n"
                [Arg.float (probeTarget probes5
                  (heap3 (catalog3.Servers.head (by decide))).URL 0).1.2.2]]
      ∧ (Speedtest.ShowResult Atoi probes5 catalog3 []
          { heap := heap3, world := 0, out := [] }).world
        = (probeTarget probes5 (heap3 (catalog3.Servers.head (by decide))).URL 0).2 :=
  Speedtest_ShowResult_nearest Atoi probes5 catalog3 [] { heap := heap3, world := 0, out := [] }
    (by decide) (by simp)

/-- C9, the code at a failing input: the latency probe returns 5 ms for the one
target, both transfer probes receive it and their results are stored, but the
target's `Latency` is still 0 after `StartTest`. -/
theorem StartTest_latency_not_stored :
    (probes5.PingTest (heap3 0).URL 0).1 = 5000000
      ∧ ((StartTest probes5 [0] { heap := heap3, world := 0, out := [] }).heap 0).Latency = 0
      ∧ ((StartTest probes5 [0] { heap := heap3, world := 0, out := [] }).heap 0).DLSpeed = 10
      ∧ ((StartTest probes5 [0] { heap := heap3, world := 0, out := [] }).heap 0).ULSpeed
          = 20 := by
  refine ⟨rfl, rfl, ?_, ?_⟩ <;> simp [StartTest, startTestStep, Heap.set, probes5]

end SpeedtestGo
